import Mathlib

/-!
# Verification of the family points application

Shallow embedding of `src/family_points_app.py`, a household chore/study
point-tracking tool. The embedding covers:

* the configuration store (`load_config`, `ensure_default_study_tasks`,
  `ensure_default_house_tasks`, `save` being modelled by the returned
  `changed` flag),
* the ledger of point events and the handlers that mutate it
  (study-buffer flush, penalty registration, undo-latest, child removal,
  activity add/remove),
* the per-child study buffer (a Python dict from subject to minutes,
  modelled as an insertion-ordered association list),
* the weekly aggregation (Monday-based week start).

Floating-point rates, hours and points are modelled as `Rat`: every value
the claims touch (multiples of 0.25 hours, rates, their products) is a
dyadic rational represented exactly by Python floats, so no rounding
behaviour is lost. Calendar dates are modelled as proleptic-Gregorian
ordinals (`Int`, Python's `date.toordinal`), for which Python's
`date.weekday()` is `(ordinal + 6) % 7` (ordinal 1 is a Monday).
-/

namespace FamilyPoints

/-- An activity definition (one entry of `config["tasks"]`).
`pph` is `points_per_hour` as stored in the JSON document: `none` models a
value that `float(...)` cannot coerce (missing key or non-numeric), which
`load_config` replaces by the default `10.0`. -/
structure Task where
  id : Int
  category : String
  name : String
  pph : Option Rat
deriving Repr, DecidableEq

/-- A configuration document (`config.json`). -/
structure Config where
  parent_password : String
  children : List String
  tasks : List Task
deriving Repr, DecidableEq

/-- One ledger row (a point event of `logs.csv`): date, child, category,
task label, hours, points. -/
structure Row where
  date : Int
  child : String
  category : String
  task : String
  hours : Rat
  points : Rat
deriving Repr, DecidableEq

/-- Remove leading and trailing whitespace from a character list. -/
def stripChars (l : List Char) : List Char :=
  ((l.dropWhile Char.isWhitespace).reverse.dropWhile
      Char.isWhitespace).reverse

/-- Python's `str.strip()`: remove leading and trailing whitespace.
Defined over the character list (rather than via `String.trim`, whose
auxiliaries do not reduce definitionally) so concrete runs evaluate. -/
def pyStrip (s : String) : String :=
  ⟨stripChars s.data⟩

/-- `STANDARD_STUDY_SUBJECTS`: the five study subjects plus "other". -/
def STANDARD_STUDY_SUBJECTS : List String :=
  ["算数", "国語", "理科", "社会", "英語", "その他"]

/-- `HOUSE_TASKS`: the chore presets. -/
def HOUSE_TASKS : List String :=
  ["皿洗い", "洗濯物片づけ", "掃除", "片付け"]

/-- `max((int(t.get("id", 0)) for t in tasks), default=0)`: the maximum id
of the task list, `0` when the list is empty (Python's `default` is used
only for an empty iterable). -/
def maxIdOf (tasks : List Task) : Int :=
  match tasks.map Task.id with
  | [] => 0
  | x :: xs => xs.foldl max x

/-- The per-task normalisation pass of `load_config`: strip the category,
remap the legacy label お手伝い to 家事, force any of the standard study
subjects into the 勉強 category, coerce `points_per_hour` to float with
default `10.0`, and pin study rates to `10.0`. -/
def normalizeTask (t : Task) : Task :=
  let cat0 := pyStrip t.category
  let cat1 := if cat0 = "お手伝い" then "家事" else cat0
  let cat := if t.name ∈ STANDARD_STUDY_SUBJECTS then "勉強" else cat1
  let pph0 := t.pph.getD 10
  let pph := if cat = "勉強" then (10 : Rat) else pph0
  { t with category := cat, pph := some pph }

/-- The shared loop body of `ensure_default_study_tasks` /
`ensure_default_house_tasks`: for each preset name in order, append a task
`{id := maxId + 1, category := cat, name := nm, points_per_hour := 10.0}`
unless a task with (stripped category = `cat`, name = `nm`) already exists;
`maxId` is threaded exactly like the Python `max_id` local. Returns the
grown list and the `changed` flag. -/
def ensureDefaultsAux (cat : String) (maxId : Int) (changed : Bool)
    (tasks : List Task) : List String → List Task × Bool
  | [] => (tasks, changed)
  | nm :: rest =>
    if tasks.any (fun t => pyStrip t.category == cat && t.name == nm) then
      ensureDefaultsAux cat maxId changed tasks rest
    else
      ensureDefaultsAux cat (maxId + 1) true
        (tasks ++ [⟨maxId + 1, cat, nm, some 10⟩]) rest

/-- `ensure_default_study_tasks`: ensure every standard study subject is
present under 勉強. -/
def ensure_default_study_tasks (tasks : List Task) : List Task × Bool :=
  ensureDefaultsAux "勉強" (maxIdOf tasks) false tasks STANDARD_STUDY_SUBJECTS

/-- `ensure_default_house_tasks`: ensure every chore preset is present
under 家事. -/
def ensure_default_house_tasks (tasks : List Task) : List Task × Bool :=
  ensureDefaultsAux "家事" (maxIdOf tasks) false tasks HOUSE_TASKS

/-- `load_config` on an existing configuration document (the file-present
branch). Returns the resulting configuration together with the `changed`
flag; the Python code calls `save_config` exactly when that flag is true.
Note that the normalisation loop executes `changed = True` once per task,
unconditionally, so the flag is set whenever the task list is nonempty. -/
def load_config (config : Config) : Config × Bool :=
  let tasks := config.tasks.map normalizeTask
  let changed := !tasks.isEmpty
  let study := ensure_default_study_tasks tasks
  let house := ensure_default_house_tasks study.1
  ({ config with tasks := house.1 }, changed || study.2 || house.2)

/-- `find_task(config, category, name)`: first task whose stripped category
equals the stripped requested category and whose name equals `name`. -/
def find_task (tasks : List Task) (category name : String) : Option Task :=
  tasks.find? (fun t =>
    pyStrip t.category == pyStrip category && t.name == name)

/-! ## Study buffer

`st.session_state["study_buffer"][child]` is a Python dict mapping a
subject name to accumulated minutes. A dict with string keys is an
insertion-ordered association list with unique keys. -/

/-- A per-child study buffer: subject ↦ minutes, in insertion order. -/
abbrev Buffer := List (String × Int)

/-- `int(buffer.get(subj, 0))`. -/
def getMinutes (buf : Buffer) (subj : String) : Int :=
  match buf.find? (fun kv => kv.1 == subj) with
  | some kv => kv.2
  | none => 0

/-- `buffer[subj] = v`: replace in place when the key exists (Python dicts
keep the key's position), append otherwise. -/
def setEntry : Buffer → String → Int → Buffer
  | [], subj, v => [(subj, v)]
  | (k, w) :: rest, subj, v =>
    if k == subj then (k, v) :: rest else (k, w) :: setEntry rest subj v

/-- The ＋15分 button: `buffer[subj] = minutes + 15`. -/
def plusFifteen (buf : Buffer) (subj : String) : Buffer :=
  setEntry buf subj (getMinutes buf subj + 15)

/-- The −15分 button: `buffer[subj] = minutes - 15`, executed only when
`minutes >= 15` (the handler is `if minus and minutes >= 15`). -/
def minusFifteen (buf : Buffer) (subj : String) : Buffer :=
  setEntry buf subj (getMinutes buf subj - 15)

/-- The rate used by the flush loop:
`float(task.get("points_per_hour", 10.0)) if task else 10.0`, with the
task resolved by `find_task(config, "勉強", subj)`. -/
def studyRate (tasks : List Task) (subj : String) : Rat :=
  match find_task tasks "勉強" subj with
  | some t => t.pph.getD 10
  | none => 10

/-- The row the flush loop appends for a subject with `minutes` minutes. -/
def mkStudyRow (tasks : List Task) (child : String) (today : Int)
    (sm : String × Int) : Row :=
  { date := today, child := child, category := "勉強", task := sm.1,
    hours := (sm.2 : Rat) / 60, points := (sm.2 : Rat) / 60 * studyRate tasks sm.1 }

/-- The `for subj, minutes in buf.items()` loop of the 確定 (confirm)
handler: skip subjects with `minutes <= 0`, otherwise emit one row dated
today with `hours = minutes / 60.0` and `points = hours * pph`. -/
def flushRows (tasks : List Task) (child : String) (today : Int) :
    Buffer → List Row
  | [] => []
  | sm :: rest =>
    if sm.2 ≤ 0 then flushRows tasks child today rest
    else mkStudyRow tasks child today sm :: flushRows tasks child today rest

/-- The 確定 handler after the loop: if no rows were built, warn
(勉強時間が0分です) and change nothing (`none`); otherwise append the rows
to the ledger, save, and clear the child's buffer to `{}`. Returns the new
ledger and buffer on success. -/
def confirmStudy (tasks : List Task) (child : String) (today : Int)
    (logs : List Row) (buf : Buffer) : Option (List Row × Buffer) :=
  let rows := flushRows tasks child today buf
  if rows.isEmpty then none else some (logs ++ rows, ([] : Buffer))

/-! ## Ledger handlers -/

/-- The 減点を登録 (register penalty) handler: if the reason is blank after
stripping, error out with no append (`none`); otherwise append one row with
category 減点, task = stripped reason, hours 0.0, points = `-amount`. -/
def registerPenalty (logs : List Row) (child : String) (pdate : Int)
    (reason : String) (amount : Rat) : Option (List Row) :=
  if pyStrip reason = "" then none
  else some (logs ++
    [{ date := pdate, child := child, category := "減点",
       task := pyStrip reason, hours := 0, points := -amount }])

/-- `logs_df[mask].index.max()` for `mask = logs_df["child"] == child`:
the greatest row position whose child matches, `none` when
`not mask.any()` (the rows are positions `0 .. n-1` of the loaded CSV). -/
def lastMatchIdx : List Row → String → Option Nat
  | [], _ => none
  | r :: rs, child =>
    match lastMatchIdx rs child with
    | some i => some (i + 1)
    | none => if r.child == child then some 0 else none

/-- The 直近の1件を取り消す (undo latest) handler: when no row of this
child exists, warn and change nothing (`none`); otherwise drop the row at
the maximum matching index. -/
def undoLatest (logs : List Row) (child : String) : Option (List Row) :=
  match lastMatchIdx logs child with
  | none => none
  | some i => some (logs.eraseIdx i)

/-- Result of the 選択した子どもを削除 (delete child) handler. -/
inductive RemoveChildResult where
  | notSelected
  | validationError
  | removed (children : List String)
deriving Repr, DecidableEq

/-- The delete-child handler: no-op on the 選択しない sentinel; error
(子どもは1人以上必要です) when `len(children) <= 1`; otherwise keep the
children whose name differs from the selection. -/
def removeChild (children : List String) (del : String) : RemoveChildResult :=
  if del = "選択しない" then .notSelected
  else if children.length ≤ 1 then .validationError
  else .removed (children.filter (fun c => c != del))

/-- The delete-child handler at the level of the whole state: it reads and
writes only `config["children"]` and never touches `logs_df`. -/
def removeChildAction (children : List String) (logs : List Row)
    (del : String) : RemoveChildResult × List Row :=
  (removeChild children del, logs)

/-- The 項目を追加 (add activity) handler: strip the name; error when it is
empty or when a task with the same (stripped category, stripped name)
exists; otherwise append a task with id `max id + 1` (study rates forced to
10.0) and return the new list with the assigned id. -/
def addActivity (tasks : List Task) (category name : String) (pph : Rat) :
    Option (List Task × Int) :=
  let nameStripped := pyStrip name
  if nameStripped = "" then none
  else if tasks.any (fun t =>
      pyStrip t.category == pyStrip category &&
      pyStrip t.name == nameStripped) then none
  else
    let nextId := maxIdOf tasks + 1
    let pphToSave := if category = "勉強" then (10 : Rat) else pph
    some (tasks ++ [⟨nextId, category, nameStripped, some pphToSave⟩], nextId)

/-- The 選択した項目を削除 (delete activity) handler:
`[t for t in tasks if int(t.get("id", 0)) != del_id]`. -/
def removeActivity (tasks : List Task) (delId : Int) : List Task :=
  tasks.filter (fun t => t.id != delId)

/-! ## Weekly aggregation -/

/-- Python's `date.weekday()` on the proleptic-Gregorian ordinal:
Monday = 0 … Sunday = 6 (ordinal 1, year 1 Jan 1, is a Monday). -/
def pyWeekday (d : Int) : Int := (d + 6) % 7

/-- The こんしゅうのポイント computation: filter the ledger to this child,
let `this_week_start = today - timedelta(days=today.weekday())`, and sum
the points of the rows with `date >= this_week_start`. -/
def weekFor (logs : List Row) (child : String) (today : Int) : Rat :=
  (((logs.filter (fun r => r.child == child)).filter
      (fun r => today - pyWeekday today ≤ r.date)).map Row.points).sum

/-! ## Concrete documents used as counterexamples and witnesses -/

/-- A configuration document holding two copies of the (勉強, 算数)
activity — the JSON file is free-form, so nothing rules this out. -/
def dupConfig : Config :=
  ⟨"p", ["A"], [⟨1, "勉強", "算数", some 5⟩, ⟨2, "勉強", "算数", some 7⟩]⟩

/-- A one-activity task list: the 国語 study activity at the pinned rate. -/
def demoTasks : List Task := [⟨2, "勉強", "国語", some 10⟩]

/-- A sample ledger row for child "A". -/
def demoRowA : Row := ⟨739000, "A", "勉強", "国語", 1, 10⟩

/-- A sample ledger row for child "B". -/
def demoRowB : Row := ⟨739001, "B", "家事", "皿洗い", 1, 10⟩

/-- The buffer obtained from three ＋15分 presses on 国語. -/
def demoBuf : Buffer :=
  plusFifteen (plusFifteen (plusFifteen [] "国語") "国語") "国語"

/-- The per-child study buffers reachable through the app's handlers: a
buffer starts empty, the ＋15分 button adds 15 to a subject, the −15分
button subtracts 15 and only fires when the current count is at least 15
(`if minus and minutes >= 15`), and both リセット and a successful 確定
flush assign `st.session_state["study_buffer"][child] = {}`. -/
inductive ReachableBuf : Buffer → Prop where
  | init : ReachableBuf []
  | plus (buf : Buffer) (subj : String) :
      ReachableBuf buf → ReachableBuf (plusFifteen buf subj)
  | minus (buf : Buffer) (subj : String) :
      ReachableBuf buf → 15 ≤ getMinutes buf subj →
      ReachableBuf (minusFifteen buf subj)
  | clear (buf : Buffer) : ReachableBuf buf → ReachableBuf []

end FamilyPoints

namespace FamilyPoints

/-! ## Helper lemmas -/

theorem dropWhile_of_head_not {α} (p : α → Bool) (m : List α) (h : m ≠ [])
    (hp : p (m.head h) = false) : m.dropWhile p = m := by
  cases m with
  | nil => exact absurd rfl h
  | cons c cs =>
    simp only [List.head_cons] at hp
    simp [List.dropWhile_cons, hp]

/-- `stripChars` is idempotent: stripping a stripped list changes
nothing. -/
theorem stripChars_idem (l : List Char) : stripChars (stripChars l) = stripChars l := by
  set p := Char.isWhitespace with hp
  by_cases hb : (l.dropWhile p).reverse.dropWhile p = []
  · unfold stripChars
    rw [hb]
    simp
  · set a := l.dropWhile p with ha
    set b := a.reverse.dropWhile p with hbdef
    have hbne : b ≠ [] := hb
    have harev : a.reverse ≠ [] := by
      intro h
      apply hbne
      rw [hbdef, h]
      rfl
    have hane : a ≠ [] := by
      intro h; apply harev; rw [h]; rfl
    have hheadb : p (b.head hbne) = false := List.head_dropWhile_not p a.reverse hbne
    have hsplit : a.reverse.takeWhile p ++ b = a.reverse :=
      List.takeWhile_append_dropWhile p a.reverse
    have hgl : b.getLast hbne = a.head hane := by
      have h1 : (a.reverse.takeWhile p ++ b).getLast
          (by rw [hsplit]; exact harev) = b.getLast hbne :=
        List.getLast_append_of_ne_nil hbne
      have h2 : a.reverse.getLast harev = a.head hane := List.getLast_reverse harev
      calc b.getLast hbne = (a.reverse.takeWhile p ++ b).getLast _ := h1.symm
        _ = a.reverse.getLast harev := by congr 1
        _ = a.head hane := h2
    have hheada : p (a.head hane) = false := List.head_dropWhile_not p l hane
    have hbrne : b.reverse ≠ [] := by simpa using hbne
    have hglast : p (b.getLast hbne) = false := by rw [hgl]; exact hheada
    have hheadbr : p (b.reverse.head hbrne) = false := by
      rw [List.head_reverse]
      exact hglast
    have e1 : b.reverse.dropWhile p = b.reverse :=
      dropWhile_of_head_not p _ hbrne hheadbr
    have e2 : b.dropWhile p = b := dropWhile_of_head_not p _ hbne hheadb
    show stripChars b.reverse = b.reverse
    unfold stripChars
    rw [e1, List.reverse_reverse, e2]

/-- `pyStrip` is idempotent, like Python's `str.strip()`. -/
theorem pyStrip_idem (s : String) : pyStrip (pyStrip s) = pyStrip s :=
  congrArg String.mk (stripChars_idem s.data)

/-- `ensureDefaultsAux` only appends: its result extends the input list. -/
theorem ensureDefaultsAux_append (cat : String) (names : List String) :
    ∀ (maxId : Int) (ch : Bool) (tasks : List Task),
      ∃ rest, (ensureDefaultsAux cat maxId ch tasks names).1 = tasks ++ rest := by
  induction names with
  | nil => exact fun maxId ch tasks => ⟨[], by simp [ensureDefaultsAux]⟩
  | cons nm rest ih =>
    intro maxId ch tasks
    unfold ensureDefaultsAux
    by_cases h : tasks.any (fun t => pyStrip t.category == cat && t.name == nm)
    · simp only [h, if_true]
      exact ih maxId ch tasks
    · simp only [h, if_false]
      obtain ⟨r, hr⟩ := ih (maxId + 1) true (tasks ++ [⟨maxId + 1, cat, nm, some 10⟩])
      exact ⟨⟨maxId + 1, cat, nm, some 10⟩ :: r, by simpa using hr⟩

/-- Every task of an `ensureDefaultsAux` run is an input task or one of
the appended preset tasks (category `cat`, rate pinned to 10). -/
theorem ensureDefaultsAux_mem (cat : String) (names : List String) :
    ∀ (maxId : Int) (ch : Bool) (tasks : List Task) (t : Task),
      t ∈ (ensureDefaultsAux cat maxId ch tasks names).1 →
      t ∈ tasks ∨ (t.category = cat ∧ t.pph = some 10) := by
  induction names with
  | nil => intro maxId ch tasks t h; exact Or.inl h
  | cons nm rest ih =>
    intro maxId ch tasks t h
    unfold ensureDefaultsAux at h
    by_cases hc : tasks.any (fun t => pyStrip t.category == cat && t.name == nm)
    · simp only [hc, if_true] at h
      exact ih maxId ch tasks t h
    · simp only [hc, if_false] at h
      rcases ih _ _ _ _ h with hmem | hnew
      · rcases List.mem_append.mp hmem with h1 | h2
        · exact Or.inl h1
        · refine Or.inr ?_
          rcases List.mem_singleton.mp h2 with rfl
          exact ⟨rfl, rfl⟩
      · exact Or.inr hnew

/-- `ensureDefaultsAux` preserves the property that every task's category
is fixed by stripping. -/
theorem ensureDefaultsAux_stripped (cat : String) (names : List String)
    (hcat : pyStrip cat = cat) :
    ∀ (maxId : Int) (ch : Bool) (tasks : List Task),
      (∀ u ∈ tasks, pyStrip u.category = u.category) →
      ∀ t ∈ (ensureDefaultsAux cat maxId ch tasks names).1,
        pyStrip t.category = t.category := by
  intro maxId ch tasks hstr t ht
  rcases ensureDefaultsAux_mem cat names maxId ch tasks t ht with h | ⟨hc, _⟩
  · exact hstr t h
  · rw [hc]; exact hcat

/-- After `ensureDefaultsAux`, every requested preset name is present with
exactly the requested category (assuming the incoming categories are
strip-fixed, which normalisation guarantees). -/
theorem ensureDefaultsAux_exists (cat : String) (hcat : pyStrip cat = cat)
    (names : List String) :
    ∀ (maxId : Int) (ch : Bool) (tasks : List Task),
      (∀ u ∈ tasks, pyStrip u.category = u.category) →
      ∀ nm ∈ names,
        ∃ t ∈ (ensureDefaultsAux cat maxId ch tasks names).1,
          t.category = cat ∧ t.name = nm := by
  induction names with
  | nil => intro _ _ _ _ nm h; exact absurd h (List.not_mem_nil nm)
  | cons nm' rest ih =>
    intro maxId ch tasks hstr nm hnm
    unfold ensureDefaultsAux
    by_cases hc : tasks.any (fun t => pyStrip t.category == cat && t.name == nm')
    · rw [if_pos hc]
      rcases List.mem_cons.mp hnm with rfl | hmem
      · rcases List.any_eq_true.mp hc with ⟨t0, ht0, hp⟩
        have hp' : (pyStrip t0.category == cat) = true ∧ (t0.name == nm) = true := by
          simpa using hp
        have hcat0 : t0.category = cat := by
          rw [← hstr t0 ht0]; exact beq_iff_eq.mp hp'.1
        obtain ⟨r, hr⟩ := ensureDefaultsAux_append cat rest maxId ch tasks
        exact ⟨t0, by rw [hr]; exact List.mem_append_left r ht0,
          hcat0, beq_iff_eq.mp hp'.2⟩
      · exact ih maxId ch tasks hstr nm hmem
    · rw [if_neg hc]
      rcases List.mem_cons.mp hnm with rfl | hmem
      · obtain ⟨r, hr⟩ := ensureDefaultsAux_append cat rest (maxId + 1) true
          (tasks ++ [⟨maxId + 1, cat, nm, some 10⟩])
        refine ⟨⟨maxId + 1, cat, nm, some 10⟩, ?_, rfl, rfl⟩
        rw [hr]
        exact List.mem_append_left r (List.mem_append_right tasks (List.mem_singleton.mpr rfl))
      · refine ih (maxId + 1) true (tasks ++ [⟨maxId + 1, cat, nm', some 10⟩]) ?_ nm hmem
        intro u hu
        rcases List.mem_append.mp hu with h1 | h2
        · exact hstr u h1
        · rcases List.mem_singleton.mp h2 with rfl
          exact hcat

/-- Normalisation leaves every category fixed under stripping. -/
theorem normalizeTask_stripped (u : Task) :
    pyStrip (normalizeTask u).category = (normalizeTask u).category := by
  unfold normalizeTask
  dsimp only
  split
  · rfl
  · split
    · rfl
    · exact pyStrip_idem u.category

/-- The task list produced by `load_config`, unfolded. -/
theorem load_config_tasks (config : Config) :
    (load_config config).1.tasks =
      (ensure_default_house_tasks
        (ensure_default_study_tasks (config.tasks.map normalizeTask)).1).1 := rfl

/-- Every task in a loaded configuration has a strip-fixed category. -/
theorem load_config_stripped (config : Config) :
    ∀ t ∈ (load_config config).1.tasks, pyStrip t.category = t.category := by
  intro t ht
  rw [load_config_tasks] at ht
  refine ensureDefaultsAux_stripped "家事" HOUSE_TASKS rfl _ _ _ ?_ t ht
  refine ensureDefaultsAux_stripped "勉強" STANDARD_STUDY_SUBJECTS rfl _ _ _ ?_
  intro u hu
  rcases List.mem_map.mp hu with ⟨v, _, rfl⟩
  exact normalizeTask_stripped v

/-- After `load_config`, each fixed study subject is present under 勉強
and each chore preset under 家事. -/
theorem load_config_preset_mem (config : Config) :
    (∀ nm ∈ STANDARD_STUDY_SUBJECTS,
      ∃ t ∈ (load_config config).1.tasks, t.category = "勉強" ∧ t.name = nm) ∧
    (∀ nm ∈ HOUSE_TASKS,
      ∃ t ∈ (load_config config).1.tasks, t.category = "家事" ∧ t.name = nm) := by
  have hstr0 : ∀ u ∈ config.tasks.map normalizeTask,
      pyStrip u.category = u.category := by
    intro u hu
    rcases List.mem_map.mp hu with ⟨v, _, rfl⟩
    exact normalizeTask_stripped v
  have hstr1 : ∀ u ∈ (ensure_default_study_tasks (config.tasks.map normalizeTask)).1,
      pyStrip u.category = u.category :=
    ensureDefaultsAux_stripped "勉強" STANDARD_STUDY_SUBJECTS rfl _ _ _ hstr0
  constructor
  · intro nm hnm
    obtain ⟨t, ht, hc, hn⟩ := ensureDefaultsAux_exists "勉強" rfl
      STANDARD_STUDY_SUBJECTS _ _ _ hstr0 nm hnm
    obtain ⟨r, hr⟩ := ensureDefaultsAux_append "家事" HOUSE_TASKS
      (maxIdOf (ensure_default_study_tasks (config.tasks.map normalizeTask)).1)
      false (ensure_default_study_tasks (config.tasks.map normalizeTask)).1
    refine ⟨t, ?_, hc, hn⟩
    rw [load_config_tasks]
    show t ∈ (ensure_default_house_tasks _).1
    unfold ensure_default_house_tasks
    rw [hr]
    exact List.mem_append_left r ht
  · intro nm hnm
    obtain ⟨t, ht, hc, hn⟩ := ensureDefaultsAux_exists "家事" rfl
      HOUSE_TASKS _ _ _ hstr1 nm hnm
    exact ⟨t, by rw [load_config_tasks]; exact ht, hc, hn⟩

/-- Every loaded task list is nonempty (算数 at least is always present). -/
theorem load_config_tasks_ne_nil (config : Config) :
    (load_config config).1.tasks ≠ [] := by
  obtain ⟨t, ht, -⟩ := (load_config_preset_mem config).1 "算数" (by decide)
  intro h
  rw [h] at ht
  exact List.not_mem_nil t ht

/-- `load_config` reports a change (and therefore writes the file)
whenever the incoming task list is nonempty: the normalisation loop runs
`changed = True` once per task, unconditionally. -/
theorem load_config_changed_of_ne_nil (c : Config) (h : c.tasks ≠ []) :
    (load_config c).2 = true := by
  have hm : (c.tasks.map normalizeTask).isEmpty = false := by
    simp [List.isEmpty_iff, h]
  simp [load_config, hm]

/-! ## Claim theorems -/

/-- C1: after any run of `load_config`, every task whose category is the
study category 勉強 has `points_per_hour` exactly 10.0, for every input
configuration document, regardless of the stored rate (non-coercible rates
included, via the `Option.getD 10` default). -/
theorem study_rate_pinned (config : Config) :
    ∀ t ∈ (load_config config).1.tasks, t.category = "勉強" → t.pph = some 10 := by
  intro t ht hcat
  rw [load_config_tasks] at ht
  rcases ensureDefaultsAux_mem "家事" HOUSE_TASKS _ _ _ t ht with ht2 | ⟨hc, _⟩
  · rcases ensureDefaultsAux_mem "勉強" STANDARD_STUDY_SUBJECTS _ _ _ t ht2 with
      ht3 | ⟨_, hp⟩
    · rcases List.mem_map.mp ht3 with ⟨u, _, rfl⟩
      unfold normalizeTask at hcat ⊢
      dsimp only at hcat ⊢
      rw [hcat]
      simp
    · exact hp
  · rw [hcat] at hc
    exact absurd hc (by decide)

/-- Witness for C1 at a concrete document: in the loaded `dupConfig` the
first 算数 task sits in the study category, so its rate is pinned. -/
theorem study_rate_pinned_witness :
    (⟨1, "勉強", "算数", some 10⟩ : Task).pph = some 10 :=
  study_rate_pinned dupConfig ⟨1, "勉強", "算数", some 10⟩ (by decide) (by decide)

/-- C2 counterexample: running `load_config` twice on a concrete document
with no edits in between still reports a change on the second run — the
claimed "no further write" is false. -/
theorem load_config_second_write_cex :
    (load_config (load_config dupConfig).1).2 = true := by decide

/-- C2 (amended): a second `load_config` run always performs a further
write: the normalisation loop flags a change for every nonempty task list,
and after a load the task list is always nonempty. -/
theorem load_config_second_run_writes (config : Config) :
    (load_config (load_config config).1).2 = true :=
  load_config_changed_of_ne_nil _ (load_config_tasks_ne_nil config)

/-- C3 counterexample: a document already holding two (勉強, 算数) tasks
keeps both across `load_config`, so "exactly one" fails. -/
theorem load_config_dup_preset_cex :
    ((load_config dupConfig).1.tasks.filter
      (fun t => t.category == "勉強" && t.name == "算数")).length = 2 := by decide

/-- C3 (amended): for every input document and every pair in the fixed
study-subject and chore-preset lists, after `load_config` the task list
contains at least one task with that category and name (the input may
already contain duplicates, which are kept). -/
theorem load_config_presets_at_least_once (config : Config) :
    (∀ nm ∈ STANDARD_STUDY_SUBJECTS,
      ∃ t ∈ (load_config config).1.tasks, t.category = "勉強" ∧ t.name = nm) ∧
    (∀ nm ∈ HOUSE_TASKS,
      ∃ t ∈ (load_config config).1.tasks, t.category = "家事" ∧ t.name = nm) :=
  load_config_preset_mem config

/-- Witness for C3 (amended) at a concrete document and pair. -/
theorem load_config_presets_at_least_once_witness :
    ∃ t ∈ (load_config dupConfig).1.tasks, t.category = "家事" ∧ t.name = "皿洗い" :=
  (load_config_presets_at_least_once dupConfig).2 "皿洗い" (by decide)

/-- The flush loop keeps exactly the buffer entries with positive minutes
and maps each to its study row, in buffer order. -/
theorem flushRows_eq (tasks : List Task) (child : String) (today : Int)
    (buf : Buffer) :
    flushRows tasks child today buf
      = (buf.filter (fun sm => decide (0 < sm.2))).map
          (mkStudyRow tasks child today) := by
  induction buf with
  | nil => rfl
  | cons sm rest ih =>
    show (if sm.2 ≤ 0 then _ else _) = _
    by_cases h : sm.2 ≤ 0
    · rw [if_pos h, ih, List.filter_cons]
      have : decide (0 < sm.2) = false := by
        simp only [decide_eq_false_iff_not]
        omega
      rw [this]
      simp
    · rw [if_neg h, ih, List.filter_cons]
      have : decide (0 < sm.2) = true := by
        simp only [decide_eq_true_eq]
        omega
      rw [this]
      simp

/-- With unique subject keys, the buffer entries keyed `s` are exactly the
one entry `(s, m)`. -/
theorem filter_key_of_nodup (buf : Buffer) (hnd : (buf.map Prod.fst).Nodup)
    (s : String) (m : Int) (hmem : (s, m) ∈ buf) :
    buf.filter (fun sm => sm.1 == s) = [(s, m)] := by
  induction buf with
  | nil => exact absurd hmem (List.not_mem_nil _)
  | cons kv rest ih =>
    rw [List.map_cons, List.nodup_cons] at hnd
    rcases List.mem_cons.mp hmem with rfl | hmem'
    · rw [List.filter_cons]
      simp only [beq_self_eq_true, if_pos]
      have : rest.filter (fun sm => sm.1 == s) = [] := by
        rw [List.filter_eq_nil_iff]
        intro a ha hkey
        have hf : a.1 ∈ rest.map Prod.fst := List.mem_map_of_mem Prod.fst ha
        rw [beq_iff_eq.mp hkey] at hf
        exact hnd.1 hf
      rw [this]
    · have hne : (kv.1 == s) = false := by
        rw [beq_eq_false_iff_ne]
        intro h
        exact hnd.1 (h ▸ List.mem_map_of_mem Prod.fst hmem')
      rw [List.filter_cons, hne]
      simp only [if_neg Bool.false_ne_true]
      exact ih hnd.2 hmem'

/-- C4: flushing a child's study buffer emits, for every subject with
positive accumulated minutes, exactly one point event dated today with
`hours = minutes / 60` and `points = hours * rate` (rate 10.0 when the
study activity is absent), appends those events to the ledger and empties
the buffer; when every subject is at zero it emits nothing, warns, and
leaves the ledger unchanged. The scenario conjunct: after three 15-minute
increments on 国語 the buffer holds 45 minutes, and the flush yields one
event with hours 0.75 and points 7.5 with the buffer empty afterwards. -/
theorem confirm_study_flush (tasks : List Task) (child : String)
    (today : Int) (logs : List Row) (buf : Buffer)
    (hnd : (buf.map Prod.fst).Nodup) :
    (flushRows tasks child today buf
      = (buf.filter (fun sm => decide (0 < sm.2))).map
          (mkStudyRow tasks child today))
    ∧ (∀ sm ∈ buf, 0 < sm.2 →
        (flushRows tasks child today buf).filter (fun r => r.task == sm.1)
          = [mkStudyRow tasks child today sm])
    ∧ ((∀ sm ∈ buf, sm.2 ≤ 0) →
        confirmStudy tasks child today logs buf = none)
    ∧ ((∃ sm ∈ buf, 0 < sm.2) →
        confirmStudy tasks child today logs buf
          = some (logs ++ flushRows tasks child today buf, []))
    ∧ (getMinutes demoBuf "国語" = 45
        ∧ flushRows demoTasks "A" 0 demoBuf
            = [⟨0, "A", "勉強", "国語", 0.75, 7.5⟩]
        ∧ confirmStudy demoTasks "A" 0 [] demoBuf
            = some ([⟨0, "A", "勉強", "国語", 0.75, 7.5⟩], [])) := by
  have hempty : (flushRows tasks child today buf).isEmpty = true ↔
      ∀ sm ∈ buf, sm.2 ≤ 0 := by
    rw [flushRows_eq, List.isEmpty_iff, List.map_eq_nil_iff, List.filter_eq_nil_iff]
    constructor
    · intro h sm hsm
      have := h sm hsm
      simp only [decide_eq_true_eq] at this
      omega
    · intro h sm hsm
      simp only [decide_eq_true_eq]
      exact not_lt.mpr (h sm hsm)
  refine ⟨flushRows_eq tasks child today buf, ?_, ?_, ?_, ?_, ?_, ?_⟩
  · intro sm hsm hpos
    rw [flushRows_eq, List.filter_map]
    have hcomp : ((fun r => r.task == sm.1) ∘ mkStudyRow tasks child today)
        = fun p => p.1 == sm.1 := by
      funext p
      rfl
    rw [hcomp, List.filter_filter]
    have : (buf.filter fun a => (a.1 == sm.1) && decide (0 < a.2))
        = (buf.filter (fun a => a.1 == sm.1)).filter
            (fun a => decide (0 < a.2)) := by
      rw [List.filter_filter]
      apply List.filter_congr
      intro a _
      exact Bool.and_comm _ _
    rw [this, filter_key_of_nodup buf hnd sm.1 sm.2 hsm, List.filter_cons]
    have hpos' : decide (0 < sm.2) = true := decide_eq_true hpos
    rw [hpos']
    simp
  · intro hall
    unfold confirmStudy
    rw [if_pos (hempty.mpr hall)]
  · rintro ⟨sm, hsm, hpos⟩
    unfold confirmStudy
    rw [if_neg]
    intro h
    exact absurd (hempty.mp h sm hsm) (not_le.mpr hpos)
  · decide
  · have hbuf : demoBuf = [("国語", 45)] := by decide
    have hrate : studyRate demoTasks "国語" = 10 := by decide
    have hflush : flushRows demoTasks "A" 0 [("国語", 45)]
        = [mkStudyRow demoTasks "A" 0 ("国語", 45)] := by
      show (if (45 : Int) ≤ 0 then _ else _) = _
      rw [if_neg (by omega : ¬ (45 : Int) ≤ 0)]
      rfl
    rw [hbuf, hflush]
    unfold mkStudyRow
    rw [hrate]
    norm_num
  · have hbuf : demoBuf = [("国語", 45)] := by decide
    have hrate : studyRate demoTasks "国語" = 10 := by decide
    have hflush : flushRows demoTasks "A" 0 [("国語", 45)]
        = [mkStudyRow demoTasks "A" 0 ("国語", 45)] := by
      show (if (45 : Int) ≤ 0 then _ else _) = _
      rw [if_neg (by omega : ¬ (45 : Int) ≤ 0)]
      rfl
    rw [hbuf]
    unfold confirmStudy
    rw [hflush]
    rw [if_neg (by simp : ¬ ([mkStudyRow demoTasks "A" 0 ("国語", 45)].isEmpty = true))]
    unfold mkStudyRow
    rw [hrate]
    norm_num

/-- Witness for C4 at the scenario input: the buffer built from three
＋15分 presses flushes into an appended ledger and an empty buffer. -/
theorem confirm_study_flush_witness :
    confirmStudy demoTasks "A" 0 [] demoBuf
      = some ([] ++ flushRows demoTasks "A" 0 demoBuf, []) :=
  (confirm_study_flush demoTasks "A" 0 [] demoBuf (by decide)).2.2.2.1
    ⟨("国語", 45), by decide, by decide⟩

/-- When no row matches the child, `index.max()` has nothing to take. -/
theorem lastMatchIdx_eq_none (child : String) :
    ∀ logs : List Row, (∀ r ∈ logs, r.child ≠ child) →
      lastMatchIdx logs child = none := by
  intro logs
  induction logs with
  | nil => intro _; rfl
  | cons r rs ih =>
    intro h
    unfold lastMatchIdx
    rw [ih fun r' hr' => h r' (List.mem_cons_of_mem r hr')]
    have : (r.child == child) = false :=
      beq_eq_false_iff_ne.mpr (h r (List.mem_cons_self r rs))
    rw [this]
    rfl

/-- `lastMatchIdx` returns the position of the matching row of maximal
index. -/
theorem lastMatchIdx_eq_some (child : String) :
    ∀ (logs : List Row) (i : Fin logs.length),
      (logs.get i).child = child →
      (∀ j : Fin logs.length, i.val < j.val → (logs.get j).child ≠ child) →
      lastMatchIdx logs child = some i.val := by
  intro logs
  induction logs with
  | nil => exact fun i => absurd i.isLt (by simp)
  | cons r rs ih =>
    intro i hmatch hmax
    unfold lastMatchIdx
    rcases i with ⟨iv, hi⟩
    cases iv with
    | zero =>
      have hnone : lastMatchIdx rs child = none := by
        apply lastMatchIdx_eq_none
        intro r' hr'
        rcases List.mem_iff_get.mp hr' with ⟨n, rfl⟩
        exact hmax ⟨n.val + 1, by simp⟩ (Nat.succ_pos n.val)
      rw [hnone]
      have : (r.child == child) = true := beq_iff_eq.mpr hmatch
      rw [this]
      rfl
    | succ iv' =>
      have hsome : lastMatchIdx rs child = some iv' := by
        apply ih ⟨iv', by simpa using hi⟩
        · simpa using hmatch
        · intro j hj
          have h2 := hmax ⟨j.val + 1, by simp⟩
            (Nat.succ_lt_succ hj)
          simpa using h2
      rw [hsome]

/-- C5: undo-latest for a child removes exactly the row with the maximum
index among the rows whose child matches, keeping every earlier row and
every other child's row in place (`take i ++ drop (i+1)`); when no row
matches it warns and leaves the ledger unchanged. -/
theorem undo_latest_spec (logs : List Row) (child : String) :
    ((∀ r ∈ logs, r.child ≠ child) → undoLatest logs child = none)
    ∧ (∀ i : Fin logs.length, (logs.get i).child = child →
        (∀ j : Fin logs.length, i.val < j.val → (logs.get j).child ≠ child) →
        undoLatest logs child
          = some (logs.take i.val ++ logs.drop (i.val + 1))) := by
  constructor
  · intro h
    unfold undoLatest
    rw [lastMatchIdx_eq_none child logs h]
  · intro i hmatch hmax
    unfold undoLatest
    rw [lastMatchIdx_eq_some child logs i hmatch hmax]
    show some (logs.eraseIdx i.val) = _
    rw [List.eraseIdx_eq_take_drop_succ]

/-- Witness for C5: on a two-row ledger (one row each for "A" and "B"),
undoing "A" removes row 0 and keeps "B"'s row. -/
theorem undo_latest_spec_witness :
    undoLatest [demoRowA, demoRowB] "A"
      = some ([demoRowA, demoRowB].take 0 ++ [demoRowA, demoRowB].drop 1) :=
  (undo_latest_spec [demoRowA, demoRowB] "A").2 ⟨0, by decide⟩ (by decide)
    (by decide)

/-- The seed of a `foldl max` is a lower bound of the result. -/
theorem le_foldl_max_init (xs : List Int) : ∀ a : Int, a ≤ xs.foldl max a := by
  induction xs with
  | nil => exact fun a => le_refl a
  | cons x xs ih =>
    intro a
    exact le_trans (le_max_left a x) (ih (max a x))

/-- Every member of the list is bounded by its `foldl max`. -/
theorem le_foldl_max_mem (xs : List Int) :
    ∀ (a x : Int), x ∈ xs → x ≤ xs.foldl max a := by
  induction xs with
  | nil => intro _ x hx; exact absurd hx (List.not_mem_nil x)
  | cons y ys ih =>
    intro a x hx
    rcases List.mem_cons.mp hx with rfl | hmem
    · exact le_trans (le_max_right a x) (le_foldl_max_init ys (max a x))
    · exact ih (max a y) x hmem

/-- `max((int(t.get("id", 0)) ...), default=0)` bounds every task id. -/
theorem maxIdOf_ge (tasks : List Task) : ∀ t ∈ tasks, t.id ≤ maxIdOf tasks := by
  intro t ht
  have hmem : t.id ∈ tasks.map Task.id := List.mem_map_of_mem Task.id ht
  unfold maxIdOf
  cases htm : tasks.map Task.id with
  | nil => rw [htm] at hmem; exact absurd hmem (List.not_mem_nil _)
  | cons x xs =>
    rw [htm] at hmem
    rcases List.mem_cons.mp hmem with h | h
    · rw [h]; exact le_foldl_max_init xs x
    · exact le_foldl_max_mem xs x t.id h

/-- C6: adding a new activity (its (category, name) not yet present and its
stripped name nonempty, so the add succeeds) and then removing the
activity by the id the add assigned restores the prior activity list
exactly — in particular the prior activity set, order-insensitively. -/
theorem add_remove_activity (tasks : List Task) (category name : String)
    (pph : Rat) (ts' : List Task) (nid : Int)
    (h : addActivity tasks category name pph = some (ts', nid)) :
    removeActivity ts' nid = tasks := by
  simp only [addActivity] at h
  by_cases h1 : pyStrip name = ""
  · rw [if_pos h1] at h
    exact absurd h (by simp)
  · rw [if_neg h1] at h
    by_cases h2 : tasks.any (fun t =>
        pyStrip t.category == pyStrip category && pyStrip t.name == pyStrip name)
    · rw [if_pos h2] at h
      exact absurd h (by simp)
    · rw [if_neg h2] at h
      obtain ⟨rfl, rfl⟩ := Prod.mk.inj (Option.some.inj h).symm
      unfold removeActivity
      rw [List.filter_append]
      have hkeep : tasks.filter (fun t => t.id != maxIdOf tasks + 1) = tasks := by
        rw [List.filter_eq_self]
        intro t ht
        rw [bne_iff_ne]
        have := maxIdOf_ge tasks t ht
        omega
      have hdrop : List.filter (fun t => t.id != maxIdOf tasks + 1)
          ([⟨maxIdOf tasks + 1, category, pyStrip name,
            some (if category = "勉強" then (10 : Rat) else pph)⟩] : List Task)
          = [] := by
        simp
      rw [hkeep, hdrop, List.append_nil]

/-- Witness for C6: adding ゴミ出し under 家事 to `demoTasks` assigns id 3,
and removing id 3 restores `demoTasks`. -/
theorem add_remove_activity_witness :
    removeActivity (demoTasks ++ [⟨3, "家事", "ゴミ出し", some 5⟩]) 3 = demoTasks :=
  add_remove_activity demoTasks "家事" "ゴミ出し" 5
    (demoTasks ++ [⟨3, "家事", "ゴミ出し", some 5⟩]) 3 (by decide)

/-- C7 counterexample: with the duplicate children list ["A", "A"], the
delete-child handler passes its `len(children) <= 1` check and removes
every occurrence of "A", leaving zero children with no validation error —
so "fails whenever the removal would leave zero children" is false, and
the claimed equivalence with "exactly one entry" fails. -/
theorem remove_child_dup_cex :
    removeChild ["A", "A"] "A" = RemoveChildResult.removed [] := by decide

/-- C7 (amended): removing a child fails with a validation error whenever
the children list has at most one entry, and on that failure the children
list is unmodified and the ledger untouched (the handler never writes the
ledger); with two or more entries it removes every occurrence of the name,
which can leave zero children when the list held duplicates. The scenario
conjunct: with "A" as the only child and one ledger row for "A", the
removal fails and the row persists. -/
theorem remove_child_spec (children : List String) (logs : List Row)
    (del : String) (hdel : del ≠ "選択しない") :
    (children.length ≤ 1 →
      removeChildAction children logs del
        = (RemoveChildResult.validationError, logs))
    ∧ (1 < children.length →
      removeChildAction children logs del
        = (RemoveChildResult.removed (children.filter (fun c => c != del)), logs))
    ∧ removeChildAction ["A"] [demoRowA] "A"
        = (RemoveChildResult.validationError, [demoRowA]) := by
  refine ⟨?_, ?_, by decide⟩
  · intro hlen
    unfold removeChildAction removeChild
    rw [if_neg hdel, if_pos hlen]
  · intro hlen
    unfold removeChildAction removeChild
    rw [if_neg hdel, if_neg (by omega : ¬ children.length ≤ 1)]

/-- Witness for C7 at the scenario input. -/
theorem remove_child_spec_witness :
    removeChildAction ["A"] [demoRowA] "A"
      = (RemoveChildResult.validationError, [demoRowA]) :=
  (remove_child_spec ["A"] [demoRowA] "A" (by decide)).1 (by decide)

/-- C8: the weekly total sums the points of the child's rows dated on or
after the most recent Monday on or before today — the unique `m` with
weekday 0 satisfying `m ≤ today < m + 7`. -/
theorem week_for_monday_rule (logs : List Row) (child : String)
    (today : Int) :
    ∃ m : Int, pyWeekday m = 0 ∧ m ≤ today ∧ today < m + 7
      ∧ (∀ m' : Int, pyWeekday m' = 0 → m' ≤ today → today < m' + 7 → m' = m)
      ∧ weekFor logs child today
          = ((logs.filter (fun r =>
                r.child == child && decide (m ≤ r.date))).map Row.points).sum := by
  refine ⟨today - pyWeekday today, ?_, ?_, ?_, ?_, ?_⟩
  · unfold pyWeekday; omega
  · unfold pyWeekday; omega
  · unfold pyWeekday; omega
  · intro m' h1 h2 h3
    unfold pyWeekday at h1 ⊢
    omega
  · unfold weekFor
    rw [List.filter_filter]
    have hcomm : List.filter
        (fun a => decide (today - pyWeekday today ≤ a.date) && (a.child == child))
        logs
        = List.filter
            (fun r => r.child == child && decide (today - pyWeekday today ≤ r.date))
            logs :=
      List.filter_congr (fun a _ => Bool.and_comm _ _)
    rw [hcomm]

/-- C9: a penalty registration with a nonblank reason appends exactly one
row with category 減点, hours 0.0 and points `-amount` (negative, since
the form enforces `amount ≥ 1`); with a blank reason it appends nothing. -/
theorem register_penalty_spec (logs : List Row) (child : String)
    (pdate : Int) (reason : String) (amount : Rat) (hamt : 1 ≤ amount) :
    (pyStrip reason = "" →
      registerPenalty logs child pdate reason amount = none)
    ∧ (pyStrip reason ≠ "" →
      registerPenalty logs child pdate reason amount
        = some (logs ++
            [{ date := pdate, child := child, category := "減点",
               task := pyStrip reason, hours := 0, points := -amount }])
      ∧ -amount < 0) := by
  constructor
  · intro h
    unfold registerPenalty
    rw [if_pos h]
  · intro h
    refine ⟨?_, ?_⟩
    · unfold registerPenalty
      rw [if_neg h]
    · have h0 : (0 : Rat) < amount := lt_of_lt_of_le one_pos hamt
      exact neg_neg_of_pos h0

/-- Witness for C9 on an empty ledger with reason " 宿題 " and amount 10. -/
theorem register_penalty_spec_witness :
    registerPenalty [] "A" 739000 " 宿題 " 10
      = some ([] ++
          [{ date := 739000, child := "A", category := "減点",
             task := "宿題", hours := 0, points := -10 }])
    ∧ -(10 : Rat) < 0 :=
  (register_penalty_spec [] "A" 739000 " 宿題 " 10 (by decide)).2 (by decide)

/-- Reading a key after `setEntry` returns the written value at that key
and the old value elsewhere. -/
theorem getMinutes_setEntry (subj : String) (v : Int) :
    ∀ (buf : Buffer) (s : String),
      getMinutes (setEntry buf subj v) s
        = if s = subj then v else getMinutes buf s := by
  intro buf
  induction buf with
  | nil =>
    intro s
    by_cases hs : s = subj
    · subst hs
      simp [setEntry, getMinutes, List.find?]
    · rw [if_neg hs]
      have : (subj == s) = false := beq_eq_false_iff_ne.mpr (Ne.symm hs)
      simp [setEntry, getMinutes, List.find?, this]
  | cons kv rest ih =>
    intro s
    obtain ⟨k, w⟩ := kv
    by_cases hk : k = subj
    · have hk' : (k == subj) = true := beq_iff_eq.mpr hk
      by_cases hs : s = subj
      · have hks : (k == s) = true := beq_iff_eq.mpr (hk.trans hs.symm)
        simp [setEntry, getMinutes, hk', hks, List.find?, if_pos hs]
      · have hks : (k == s) = false :=
          beq_eq_false_iff_ne.mpr (fun h => hs (h ▸ hk))
        simp [setEntry, getMinutes, hk', hks, List.find?, if_neg hs]
    · have hk' : (k == subj) = false := beq_eq_false_iff_ne.mpr hk
      by_cases hks : k = s
      · have hks' : (k == s) = true := beq_iff_eq.mpr hks
        have hs : ¬ s = subj := fun h => hk (hks.trans h)
        simp [setEntry, getMinutes, hk', hks', List.find?, if_neg hs]
      · have hks' : (k == s) = false := beq_eq_false_iff_ne.mpr hks
        have hrec := ih s
        simp only [setEntry, hk', if_neg Bool.false_ne_true]
        simp only [getMinutes, List.find?, hks'] at hrec ⊢
        exact hrec

/-- C10: every study-buffer state reachable through the handlers (start
empty; ＋15分 adds 15; −15分 subtracts 15 only when the count is at least
15; リセット and a successful flush clear the buffer) holds, for every
subject, a non-negative multiple of 15 minutes. -/
theorem study_buffer_invariant (buf : Buffer) (h : ReachableBuf buf) :
    ∀ subj, 0 ≤ getMinutes buf subj ∧ (15 : Int) ∣ getMinutes buf subj := by
  induction h with
  | init => exact fun s => ⟨le_refl 0, dvd_zero 15⟩
  | plus buf subj _ ih =>
    intro s
    unfold plusFifteen
    rw [getMinutes_setEntry]
    by_cases hs : s = subj
    · rw [if_pos hs]
      obtain ⟨h1, h2⟩ := ih subj
      exact ⟨by omega, dvd_add h2 (dvd_refl 15)⟩
    · rw [if_neg hs]
      exact ih s
  | minus buf subj _ hge ih =>
    intro s
    unfold minusFifteen
    rw [getMinutes_setEntry]
    by_cases hs : s = subj
    · rw [if_pos hs]
      obtain ⟨h1, h2⟩ := ih subj
      exact ⟨by omega, dvd_sub h2 (dvd_refl 15)⟩
    · rw [if_neg hs]
      exact ih s
  | clear buf _ _ => exact fun s => ⟨le_refl 0, dvd_zero 15⟩

/-- Witness for C10 on the buffer reached by three ＋15分 presses. -/
theorem study_buffer_invariant_witness :
    0 ≤ getMinutes demoBuf "国語" ∧ (15 : Int) ∣ getMinutes demoBuf "国語" :=
  study_buffer_invariant demoBuf
    (ReachableBuf.plus _ "国語" (ReachableBuf.plus _ "国語"
      (ReachableBuf.plus _ "国語" ReachableBuf.init))) "国語"

end FamilyPoints
